import Mathlib

/-!
Verification of the two-color Game of Life engine (`life.rs`).

The engine is shallowly embedded: `CellType`, `Loc`, and `World` mirror the
Rust data model.  A Rust `HashMap<Loc, CellType>` is modelled as a `Buffer`,
a finite set of materialized keys together with a value function (the value
function is only meaningful on the keys; `Buffer.lookup` is the observable
content of the map).  Rust `i64` arithmetic in `Loc::neighbors` is modelled
as `Int` arithmetic reduced into the `i64` range by `wrap64` (two's
complement wrap-around, the release-mode overflow semantics).
-/

/-- `CellType` from `life.rs`: `Dead`, `Red` (ColorA), `Blue` (ColorB). -/
inductive CellType where
  | Dead : CellType
  | Red : CellType
  | Blue : CellType
deriving DecidableEq, Repr

/-- `CellType::is_alive`: true for `Red`/`Blue`, false for `Dead`. -/
def CellType.is_alive : CellType → Bool
  | CellType.Dead => false
  | _ => true

/-- `CellType::combine`: `Dead` yields the other value; otherwise `Red`
dominates; `Blue` with `Blue` is `Blue`.  (Match arms in source order.) -/
def CellType.combine : CellType → CellType → CellType
  | CellType.Dead, other => other
  | other, CellType.Dead => other
  | CellType.Red, _ => CellType.Red
  | _, CellType.Red => CellType.Red
  | CellType.Blue, CellType.Blue => CellType.Blue

/-- Two's-complement wrap of an integer into the `i64` range
`[-2^63, 2^63)`; models Rust release-mode `i64` overflow. -/
def wrap64 (x : Int) : Int := (x + 2 ^ 63) % 2 ^ 64 - 2 ^ 63

/-- `Loc` from `life.rs`: a (row, column) pair of `i64`. -/
structure Loc where
  row : Int
  col : Int
deriving DecidableEq, Repr

/-- `Loc::neighbors`: the 8 Moore-neighborhood coordinates, in source
order, with `i64` wrap-around arithmetic. -/
def Loc.neighbors (l : Loc) : List Loc :=
  [ Loc.mk (wrap64 (l.row + 1)) (wrap64 (l.col + 1)),
    Loc.mk (wrap64 (l.row + 1)) (wrap64 (l.col - 1)),
    Loc.mk (wrap64 (l.row - 1)) (wrap64 (l.col + 1)),
    Loc.mk (wrap64 (l.row - 1)) (wrap64 (l.col - 1)),
    Loc.mk (wrap64 (l.row + 1)) l.col,
    Loc.mk l.row (wrap64 (l.col + 1)),
    Loc.mk (wrap64 (l.row - 1)) l.col,
    Loc.mk l.row (wrap64 (l.col - 1)) ]

/-- A linear order on `Loc` (row-major lexicographic), used only to fix a
canonical enumeration of the candidate set for the deterministic `step`. -/
instance : LinearOrder Loc :=
  LinearOrder.lift' (fun l => toLex (l.row, l.col)) (by
    intro a b h
    cases a
    cases b
    simpa [Prod.ext_iff] using h)

/-- Model of `HashMap<Loc, CellType>`: the set of materialized keys plus a
value function.  Only the values at the keys are observable. -/
structure Buffer where
  keys : Finset Loc
  val : Loc → CellType

/-- `HashMap::get`: `some` of the stored value when present. -/
def Buffer.lookup (b : Buffer) (l : Loc) : Option CellType :=
  if l ∈ b.keys then some (b.val l) else none

/-- `HashMap::get(..).unwrap_or(&Dead)`: absent means `Dead`. -/
def Buffer.getD (b : Buffer) (l : Loc) : CellType :=
  (b.lookup l).getD CellType.Dead

/-- `HashMap::insert` (also the `get_mut`-or-`insert` pattern in
`World::set`): store a value, overwriting any existing entry. -/
def Buffer.insert (b : Buffer) (l : Loc) (ct : CellType) : Buffer :=
  Buffer.mk (Insert.insert l b.keys) (Function.update b.val l ct)

/-- `entry(..).or_insert(CellType::Dead)`: materialize a key as `Dead`
only if it is not already present. -/
def Buffer.orInsertDead (b : Buffer) (l : Loc) : Buffer :=
  if l ∈ b.keys then b else b.insert l CellType.Dead

/-- `HashMap::clear`: remove every entry. -/
def Buffer.clear (b : Buffer) : Buffer := Buffer.mk ∅ b.val

/-- Body of `World::set` at the buffer level: insert the value and, when it
is alive, materialize the 8 neighbors as `Dead` without overwriting. -/
def Buffer.setCell (b : Buffer) (l : Loc) (ct : CellType) : Buffer :=
  let b1 := b.insert l ct
  if ct.is_alive then l.neighbors.foldl Buffer.orInsertDead b1 else b1

/-- Body of `World::set_cell_now` at the buffer level: insert the value
and materialize the 8 neighbors unconditionally (no aliveness check in the
source). -/
def Buffer.setCellNow (b : Buffer) (l : Loc) (ct : CellType) : Buffer :=
  l.neighbors.foldl Buffer.orInsertDead (b.insert l ct)

/-- `World` from `life.rs`: two buffers and the active-buffer selector. -/
structure World where
  buffer_1 : Buffer
  buffer_2 : Buffer
  using_buffer_1 : Bool

/-- `World::new`: both buffers empty, buffer 1 active. -/
def World.new : World :=
  World.mk (Buffer.mk ∅ fun _ => CellType.Dead) (Buffer.mk ∅ fun _ => CellType.Dead) true

/-- `World::current_buffer`: the active buffer. -/
def World.current_buffer (w : World) : Buffer :=
  if w.using_buffer_1 then w.buffer_1 else w.buffer_2

/-- Read view of `World::next_buffer`: the inactive (staging) buffer. -/
def World.nextBufferView (w : World) : Buffer :=
  if w.using_buffer_1 then w.buffer_2 else w.buffer_1

/-- Write the inactive buffer (models mutation through `next_buffer()`). -/
def World.withNext (w : World) (b : Buffer) : World :=
  if w.using_buffer_1 then World.mk w.buffer_1 b true else World.mk b w.buffer_2 false

/-- Write the active buffer (models mutation through `current_buffer_mut()`). -/
def World.withCurrent (w : World) (b : Buffer) : World :=
  if w.using_buffer_1 then World.mk b w.buffer_2 true else World.mk w.buffer_1 b false

/-- `World::get`: the active buffer's value at `loc`, `Dead` if absent. -/
def World.get (w : World) (l : Loc) : CellType :=
  w.current_buffer.getD l

/-- `World::set`: write into the inactive buffer; when the value is alive,
materialize its 8 neighbors there as `Dead` without overwriting. -/
def World.set (w : World) (l : Loc) (ct : CellType) : World :=
  w.withNext (w.nextBufferView.setCell l ct)

/-- `World::set_cell_now`: write into the active buffer and materialize
the 8 neighbors there (unconditionally). -/
def World.set_cell_now (w : World) (l : Loc) (ct : CellType) : World :=
  w.withCurrent (w.current_buffer.setCellNow l ct)

/-- `World::set_alive_now`: `set_cell_now` with `Red`. -/
def World.set_alive_now (w : World) (l : Loc) : World :=
  w.set_cell_now l CellType.Red

/-- `World::swap_buffers_and_clear`: toggle the selector, then clear the
new inactive buffer. -/
def World.swap_buffers_and_clear (w : World) : World :=
  let w1 := World.mk w.buffer_1 w.buffer_2 (!w.using_buffer_1)
  w1.withNext w1.nextBufferView.clear

/-- Error message of `World::from_configuration`
(`format!("Invalid char '{}' at {}, {}", c, row, col)`). -/
def invalidCharMsg (c : Char) (row col : Int) : String :=
  "Invalid char " ++ String.singleton (Char.ofNat 39) ++ String.singleton c ++
    String.singleton (Char.ofNat 39) ++ " at " ++ toString row ++ ", " ++ toString col

/-- The character loop of `World::from_configuration`. -/
def fromConfigurationAux (dead_char alive_char : Char) :
    List Char → World → Int → Int → Except String World
  | [], world, _, _ => Except.ok world
  | c :: rest, world, row, col =>
    if c = dead_char then
      fromConfigurationAux dead_char alive_char rest
        (world.set (Loc.mk row col) CellType.Dead) row (col + 1)
    else if c = alive_char then
      fromConfigurationAux dead_char alive_char rest
        (world.set (Loc.mk row col) CellType.Red) row (col + 1)
    else if c = '\n' then
      fromConfigurationAux dead_char alive_char rest world (row + 1) 0
    else if c = '\r' then
      fromConfigurationAux dead_char alive_char rest world row col
    else
      Except.error (invalidCharMsg c row col)

/-- `World::from_configuration`: scan the text from a fresh world. -/
def World.from_configuration (data : List Char) (dead_char alive_char : Char) :
    Except String World :=
  fromConfigurationAux dead_char alive_char data World.new 0 0

/-- Candidate derivation in `World::step`: every alive entry of the active
buffer together with its 8 neighbors (a set, duplicates collapse). -/
def World.candidates (w : World) : Finset Loc :=
  w.current_buffer.keys.biUnion fun l =>
    if (w.current_buffer.val l).is_alive then
      Insert.insert l l.neighbors.toFinset
    else ∅

/-- Canonical enumeration of the candidate set (the Rust `HashSet`
iteration order is unspecified; `step_order_irrelevant` shows any
enumeration gives the same result). -/
def World.candidateList (w : World) : List Loc :=
  w.candidates.sort (· ≤ ·)

/-- Per-candidate count of `Red` neighbors, read from the pre-step active
buffer (`f` is that buffer's `get`-with-default view). -/
def red_neighbors (f : Loc → CellType) (l : Loc) : Nat :=
  l.neighbors.countP fun n => f n = CellType.Red

/-- Per-candidate count of `Blue` neighbors. -/
def blue_neighbors (f : Loc → CellType) (l : Loc) : Nat :=
  l.neighbors.countP fun n => f n = CellType.Blue

/-- `total_alive_neighbors` in `World::step`. -/
def total_alive_neighbors (f : Loc → CellType) (l : Loc) : Nat :=
  red_neighbors f l + blue_neighbors f l

/-- `will_be_alive` in `World::step`: survival with 2 or 3 alive
neighbors, birth with exactly 3. -/
def will_be_alive (f : Loc → CellType) (l : Loc) : Bool :=
  if (f l).is_alive then
    total_alive_neighbors f l == 2 || total_alive_neighbors f l == 3
  else
    total_alive_neighbors f l == 3

/-- `next_type` in `World::step`: a surviving cell keeps its type; a newly
born cell takes the majority neighbor color, `Red` on a tie with a `Red`
present, `Blue` as the defensive fallback. -/
def next_type (f : Loc → CellType) (l : Loc) : CellType :=
  if will_be_alive f l then
    if (f l).is_alive then f l
    else if red_neighbors f l > blue_neighbors f l then CellType.Red
    else if blue_neighbors f l > red_neighbors f l then CellType.Blue
    else if red_neighbors f l > 0 then CellType.Red
    else CellType.Blue
  else CellType.Dead

/-- The `next_states` vector of `World::step`: for each candidate, the
computed state, kept only when the cell will be alive or was alive. -/
def next_states (f : Loc → CellType) (order : List Loc) : List (Loc × CellType) :=
  order.filterMap fun l =>
    if will_be_alive f l || (f l).is_alive then some (l, next_type f l) else none

/-- `World::step` with an explicit enumeration of the candidate set:
evaluate every candidate against the pre-step active buffer, write the
results through `set`, then swap and clear. -/
def World.stepWith (w : World) (order : List Loc) : World :=
  let ns := next_states (fun l => w.get l) order
  (ns.foldl (fun acc p => acc.set p.1 p.2) w).swap_buffers_and_clear

/-- `World::step`. -/
def World.step (w : World) : World :=
  w.stepWith w.candidateList

/-- Proof-side abbreviation: the buffer produced by the write loop of
`World::step` (a fold of `Buffer.setCell` over the `next_states` list). -/
def writeAll (b : Buffer) (ns : List (Loc × CellType)) : Buffer :=
  ns.foldl (fun acc p => acc.setCell p.1 p.2) b

/-- The 2×2 block of `Red` cells used for the still-life claim. -/
def blockCells : Finset Loc :=
  {Loc.mk 0 0, Loc.mk 0 1, Loc.mk 1 0, Loc.mk 1 1}

/-- The materialized footprint of the block: the block and all neighbors. -/
def blockKeys : Finset Loc :=
  blockCells ∪ blockCells.biUnion fun l => l.neighbors.toFinset

/-- Contents of the block world's active buffer. -/
def blockFun : Loc → CellType :=
  fun l => if l ∈ blockCells then CellType.Red else CellType.Dead

/-- A world holding exactly the 2×2 `Red` block (plus its materialized
`Dead` neighbors), with an empty staging buffer. -/
def blockWorld : World :=
  World.mk (Buffer.mk blockKeys blockFun) (Buffer.mk ∅ fun _ => CellType.Dead) true

/-- The Moore-neighborhood offsets: row and column offsets each in
`{-1, 0, 1}`, excluding `(0, 0)`. -/
def mooreOffsets : Finset (Int × Int) :=
  (({-1, 0, 1} : Finset Int) ×ˢ ({-1, 0, 1} : Finset Int)).erase (0, 0)

/-- Invariant used for the still-life claim: the active buffer observably
holds exactly the block pattern and the staging buffer is empty. -/
def BlockInv (w : World) : Prop :=
  (∀ l, w.get l = blockFun l) ∧ w.nextBufferView.keys = ∅

/-- A world with two `Red` cells and one `Blue` cell in a row, so that the
dead cell at (1,1) has exactly 3 alive neighbors (2 `Red`, 1 `Blue`). -/
def birthWorld : World :=
  World.mk
    (Buffer.mk {Loc.mk 0 0, Loc.mk 0 1, Loc.mk 0 2}
      (fun l => if l = Loc.mk 0 0 ∨ l = Loc.mk 0 1 then CellType.Red
        else if l = Loc.mk 0 2 then CellType.Blue else CellType.Dead))
    (Buffer.mk ∅ fun _ => CellType.Dead) true

/-- One concrete enumeration of `blockWorld`'s candidate set. -/
def enumA : List Loc :=
  [Loc.mk (-1) (-1), Loc.mk (-1) 0, Loc.mk (-1) 1, Loc.mk (-1) 2,
   Loc.mk 0 (-1), Loc.mk 0 0, Loc.mk 0 1, Loc.mk 0 2,
   Loc.mk 1 (-1), Loc.mk 1 0, Loc.mk 1 1, Loc.mk 1 2,
   Loc.mk 2 (-1), Loc.mk 2 0, Loc.mk 2 1, Loc.mk 2 2]

/-- The reverse enumeration of `blockWorld`'s candidate set. -/
def enumB : List Loc := enumA.reverse

set_option maxRecDepth 100000

/-! ### Basic buffer lemmas -/

theorem Buffer.mem_keys_of_lookup {b : Buffer} {l : Loc} {ct : CellType}
    (h : b.lookup l = some ct) : l ∈ b.keys := by
  by_cases hm : l ∈ b.keys
  · exact hm
  · simp [Buffer.lookup, hm] at h

theorem Buffer.lookup_insert (b : Buffer) (l0 : Loc) (ct : CellType) (l : Loc) :
    (b.insert l0 ct).lookup l = if l = l0 then some ct else b.lookup l := by
  by_cases h : l = l0
  · subst h
    simp [Buffer.insert, Buffer.lookup, Function.update_same]
  · simp [Buffer.insert, Buffer.lookup, Function.update_noteq h, h]

theorem Buffer.keys_insert (b : Buffer) (l0 : Loc) (ct : CellType) :
    (b.insert l0 ct).keys = Insert.insert l0 b.keys := rfl

theorem Buffer.lookup_orInsertDead (b : Buffer) (l0 l : Loc) :
    (b.orInsertDead l0).lookup l =
      if l = l0 ∧ l ∉ b.keys then some CellType.Dead else b.lookup l := by
  unfold Buffer.orInsertDead
  by_cases hk : l0 ∈ b.keys
  · simp only [hk, if_true]
    by_cases h : l = l0
    · subst h
      simp [hk]
    · simp [h]
  · simp only [hk, if_false]
    rw [Buffer.lookup_insert]
    by_cases h : l = l0
    · subst h
      simp [hk]
    · simp [h]

theorem Buffer.keys_orInsertDead (b : Buffer) (l0 : Loc) :
    (b.orInsertDead l0).keys = Insert.insert l0 b.keys := by
  unfold Buffer.orInsertDead
  by_cases hk : l0 ∈ b.keys
  · simp [hk, Finset.insert_eq_self.mpr hk]
  · simp [hk, Buffer.keys_insert]

theorem Buffer.lookup_foldl_orInsertDead (L : List Loc) (b : Buffer) (l : Loc) :
    (L.foldl Buffer.orInsertDead b).lookup l =
      if l ∈ L ∧ l ∉ b.keys then some CellType.Dead else b.lookup l := by
  induction L generalizing b with
  | nil => simp
  | cons a L ih =>
    rw [List.foldl_cons, ih, Buffer.keys_orInsertDead, Buffer.lookup_orInsertDead]
    by_cases hla : l = a
    · subst hla
      by_cases hk : l ∈ b.keys
      · simp [hk]
      · simp [hk]
    · by_cases hk : l ∈ b.keys
      · simp [hla, hk]
      · simp [hla, hk]

theorem Buffer.keys_foldl_orInsertDead (L : List Loc) (b : Buffer) :
    (L.foldl Buffer.orInsertDead b).keys = b.keys ∪ L.toFinset := by
  induction L generalizing b with
  | nil => simp
  | cons a L ih =>
    rw [List.foldl_cons, ih, Buffer.keys_orInsertDead]
    ext x
    simp [Finset.mem_union, Finset.mem_insert]

theorem Buffer.lookup_setCell_self (b : Buffer) (l0 : Loc) (ct : CellType) :
    (b.setCell l0 ct).lookup l0 = some ct := by
  unfold Buffer.setCell
  by_cases ha : ct.is_alive
  · simp only [ha, if_true]
    rw [Buffer.lookup_foldl_orInsertDead, Buffer.keys_insert]
    simp [Buffer.lookup_insert]
  · simp only [ha, Bool.false_eq_true, if_false]
    simp [Buffer.lookup_insert]

theorem Buffer.lookup_setCell_ne (b : Buffer) (l0 : Loc) (ct : CellType) (l : Loc)
    (h : l ≠ l0) :
    (b.setCell l0 ct).lookup l =
      if ct.is_alive = true ∧ l ∈ l0.neighbors ∧ l ∉ b.keys then some CellType.Dead
      else b.lookup l := by
  unfold Buffer.setCell
  by_cases ha : ct.is_alive
  · simp only [ha, if_true, true_and]
    rw [Buffer.lookup_foldl_orInsertDead, Buffer.keys_insert, Buffer.lookup_insert]
    by_cases hn : l ∈ l0.neighbors
    · by_cases hk : l ∈ b.keys
      · simp [hn, hk, h]
      · simp [hn, hk, h]
    · simp [hn, h]
  · simp only [ha, Bool.false_eq_true, if_false, false_and]
    rw [Buffer.lookup_insert]
    simp [h]

theorem Buffer.keys_setCell (b : Buffer) (l0 : Loc) (ct : CellType) :
    (b.setCell l0 ct).keys =
      Insert.insert l0 b.keys ∪ (if ct.is_alive then l0.neighbors.toFinset else ∅) := by
  unfold Buffer.setCell
  by_cases ha : ct.is_alive
  · simp [ha, Buffer.keys_foldl_orInsertDead, Buffer.keys_insert]
  · simp [ha, Buffer.keys_insert]

theorem Buffer.lookup_of_empty_keys {b : Buffer} (h : b.keys = ∅) (l : Loc) :
    b.lookup l = none := by
  simp [Buffer.lookup, h]

/-! ### Basic world lemmas -/

theorem World.current_withNext (w : World) (b : Buffer) :
    (w.withNext b).current_buffer = w.current_buffer := by
  obtain ⟨b1, b2, flag⟩ := w
  cases flag <;> rfl

theorem World.nextV_withNext (w : World) (b : Buffer) :
    (w.withNext b).nextBufferView = b := by
  obtain ⟨b1, b2, flag⟩ := w
  cases flag <;> rfl

theorem World.withNext_withNext (w : World) (b b' : Buffer) :
    (w.withNext b).withNext b' = w.withNext b' := by
  obtain ⟨b1, b2, flag⟩ := w
  cases flag <;> rfl

theorem World.withNext_self (w : World) : w.withNext w.nextBufferView = w := by
  obtain ⟨b1, b2, flag⟩ := w
  cases flag <;> rfl

theorem World.current_withCurrent (w : World) (b : Buffer) :
    (w.withCurrent b).current_buffer = b := by
  obtain ⟨b1, b2, flag⟩ := w
  cases flag <;> rfl

theorem World.nextV_withCurrent (w : World) (b : Buffer) :
    (w.withCurrent b).nextBufferView = w.nextBufferView := by
  obtain ⟨b1, b2, flag⟩ := w
  cases flag <;> rfl

theorem World.swap_current (w : World) :
    w.swap_buffers_and_clear.current_buffer = w.nextBufferView := by
  obtain ⟨b1, b2, flag⟩ := w
  cases flag <;> rfl

theorem World.swap_next (w : World) :
    w.swap_buffers_and_clear.nextBufferView = w.current_buffer.clear := by
  obtain ⟨b1, b2, flag⟩ := w
  cases flag <;> rfl

theorem World.set_current (w : World) (l : Loc) (ct : CellType) :
    (w.set l ct).current_buffer = w.current_buffer := by
  unfold World.set
  exact World.current_withNext _ _

theorem World.set_nextV (w : World) (l : Loc) (ct : CellType) :
    (w.set l ct).nextBufferView = w.nextBufferView.setCell l ct := by
  unfold World.set
  exact World.nextV_withNext _ _

theorem World.set_cell_now_nextV (w : World) (l : Loc) (ct : CellType) :
    (w.set_cell_now l ct).nextBufferView = w.nextBufferView := by
  unfold World.set_cell_now
  exact World.nextV_withCurrent _ _

theorem World.set_cell_now_current (w : World) (l : Loc) (ct : CellType) :
    (w.set_cell_now l ct).current_buffer = w.current_buffer.setCellNow l ct := by
  unfold World.set_cell_now
  exact World.current_withCurrent _ _

theorem World.set_get (w : World) (l : Loc) (ct : CellType) (x : Loc) :
    (w.set l ct).get x = w.get x := by
  unfold World.get
  rw [World.set_current]

/-! ### The write loop of `step` -/

theorem writeAll_nil (b : Buffer) : writeAll b [] = b := rfl

theorem writeAll_cons (b : Buffer) (p : Loc × CellType) (ns : List (Loc × CellType)) :
    writeAll b (p :: ns) = writeAll (b.setCell p.1 p.2) ns := rfl

theorem writeAll_lookup_preserve (ns : List (Loc × CellType)) (b : Buffer)
    (l : Loc) (ct : CellType)
    (hnw : l ∉ ns.map Prod.fst) (h : b.lookup l = some ct) :
    (writeAll b ns).lookup l = some ct := by
  induction ns generalizing b with
  | nil => exact h
  | cons p rest ih =>
    simp only [List.map_cons, List.mem_cons, not_or] at hnw
    rw [writeAll_cons]
    refine ih _ hnw.2 ?_
    rw [Buffer.lookup_setCell_ne _ _ _ _ hnw.1]
    have hk : l ∈ b.keys := Buffer.mem_keys_of_lookup h
    simp [hk, h]

theorem writeAll_lookup_of_written (ns : List (Loc × CellType)) (b : Buffer)
    (l : Loc) (ct : CellType)
    (hnd : (ns.map Prod.fst).Nodup) (hmem : (l, ct) ∈ ns) :
    (writeAll b ns).lookup l = some ct := by
  induction ns generalizing b with
  | nil => cases hmem
  | cons p rest ih =>
    simp only [List.map_cons, List.nodup_cons] at hnd
    rcases List.mem_cons.mp hmem with heq | hmem'
    · subst heq
      rw [writeAll_cons]
      exact writeAll_lookup_preserve rest _ _ _ hnd.1 (Buffer.lookup_setCell_self _ _ _)
    · rw [writeAll_cons]
      exact ih _ hnd.2 hmem'

theorem writeAll_lookup_of_unwritten (ns : List (Loc × CellType)) (b : Buffer)
    (l : Loc) (hnw : l ∉ ns.map Prod.fst) :
    (writeAll b ns).lookup l = b.lookup l ∨
      (writeAll b ns).lookup l = some CellType.Dead := by
  induction ns generalizing b with
  | nil => exact Or.inl rfl
  | cons p rest ih =>
    simp only [List.map_cons, List.mem_cons, not_or] at hnw
    rw [writeAll_cons]
    rcases ih (b.setCell p.1 p.2) hnw.2 with h | h
    · rw [h, Buffer.lookup_setCell_ne _ _ _ _ hnw.1]
      by_cases hc : p.2.is_alive = true ∧ l ∈ p.1.neighbors ∧ l ∉ b.keys
      · simp [hc]
      · simp [hc]
    · exact Or.inr h

theorem writeAll_lookup_of_unwritten_exact (ns : List (Loc × CellType)) (b : Buffer)
    (l : Loc) (hnw : l ∉ ns.map Prod.fst) :
    (writeAll b ns).lookup l =
      if l ∈ b.keys then b.lookup l
      else if ∃ p ∈ ns, p.2.is_alive = true ∧ l ∈ p.1.neighbors then some CellType.Dead
      else b.lookup l := by
  induction ns generalizing b with
  | nil => simp [writeAll_nil]
  | cons p rest ih =>
    simp only [List.map_cons, List.mem_cons, not_or] at hnw
    rw [writeAll_cons, ih _ hnw.2, Buffer.keys_setCell]
    by_cases hk : l ∈ b.keys
    · have hk' : l ∈ Insert.insert p.1 b.keys ∪
          (if p.2.is_alive then p.1.neighbors.toFinset else ∅) := by
        simp [Finset.mem_union, Finset.mem_insert, hk]
      rw [Buffer.lookup_setCell_ne _ _ _ _ hnw.1]
      simp [hk, hk']
    · by_cases hm : p.2.is_alive = true ∧ l ∈ p.1.neighbors
      · have hk' : l ∈ Insert.insert p.1 b.keys ∪
            (if p.2.is_alive then p.1.neighbors.toFinset else ∅) := by
          simp [Finset.mem_union, Finset.mem_insert, hm.1, List.mem_toFinset, hm.2]
        rw [Buffer.lookup_setCell_ne _ _ _ _ hnw.1]
        have hex : ∃ q ∈ p :: rest, q.2.is_alive = true ∧ l ∈ q.1.neighbors :=
          ⟨p, List.mem_cons_self _ _, hm⟩
        simp [hk, hk', hm, hex]
      · have hk' : l ∉ Insert.insert p.1 b.keys ∪
            (if p.2.is_alive then p.1.neighbors.toFinset else ∅) := by
          by_cases hal : p.2.is_alive = true
          · simp only [hal, if_true, Finset.mem_union, Finset.mem_insert,
              List.mem_toFinset]
            rintro ((rfl | hkk) | hnn)
            · exact hnw.1 rfl
            · exact hk hkk
            · exact hm ⟨hal, hnn⟩
          · simp only [Bool.not_eq_true] at hal
            simp only [hal, Bool.false_eq_true, if_false, Finset.union_empty,
              Finset.mem_insert]
            rintro (rfl | hkk)
            · exact hnw.1 rfl
            · exact hk hkk
        rw [Buffer.lookup_setCell_ne _ _ _ _ hnw.1]
        have hmb : ¬(p.2.is_alive = true ∧ l ∈ p.1.neighbors ∧ l ∉ b.keys) := by
          intro h
          exact hm ⟨h.1, h.2.1⟩
        have hiff : (∃ q ∈ p :: rest, q.2.is_alive = true ∧ l ∈ q.1.neighbors) ↔
            (∃ q ∈ rest, q.2.is_alive = true ∧ l ∈ q.1.neighbors) := by
          constructor
          · rintro ⟨q, hq, hq2⟩
            rcases List.mem_cons.mp hq with rfl | hq'
            · exact absurd hq2 hm
            · exact ⟨q, hq', hq2⟩
          · rintro ⟨q, hq, hq2⟩
            exact ⟨q, List.mem_cons_of_mem _ hq, hq2⟩
        by_cases he : ∃ q ∈ rest, q.2.is_alive = true ∧ l ∈ q.1.neighbors
        · rw [if_neg hk', if_pos he, if_neg hk, if_pos (hiff.mpr he)]
        · have he' : ¬∃ q ∈ p :: rest, q.2.is_alive = true ∧ l ∈ q.1.neighbors :=
            fun h => he (hiff.mp h)
          rw [if_neg hk', if_neg he, if_neg hmb, if_neg hk, if_neg he']

/-! ### `next_states` and candidate-set lemmas -/

theorem map_fst_next_states (f : Loc → CellType) (o : List Loc) :
    (next_states f o).map Prod.fst =
      o.filter fun l => will_be_alive f l || (f l).is_alive := by
  induction o with
  | nil => rfl
  | cons a o ih =>
    unfold next_states at ih ⊢
    rw [List.filterMap_cons, List.filter_cons]
    by_cases h : (will_be_alive f a || (f a).is_alive) = true
    · rw [if_pos h, h, if_pos rfl, List.map_cons, ih]
    · have h' : (will_be_alive f a || (f a).is_alive) = false :=
        Bool.not_eq_true _ |>.mp h
      rw [if_neg h, ih, h']
      simp

theorem mem_next_states (f : Loc → CellType) (o : List Loc) (l : Loc) (ct : CellType) :
    (l, ct) ∈ next_states f o ↔
      l ∈ o ∧ (will_be_alive f l || (f l).is_alive) = true ∧ ct = next_type f l := by
  simp only [next_states, List.mem_filterMap]
  constructor
  · rintro ⟨a, ha, hsome⟩
    by_cases h : (will_be_alive f a || (f a).is_alive) = true
    · rw [if_pos h] at hsome
      have hpair := Option.some.inj hsome
      have ha1 : a = l := congrArg Prod.fst hpair
      have ha2 : ct = next_type f a := (congrArg Prod.snd hpair).symm
      subst ha1
      exact ⟨ha, h, ha2⟩
    · rw [if_neg h] at hsome
      cases hsome
  · rintro ⟨hl, hcond, rfl⟩
    exact ⟨l, hl, by rw [if_pos hcond]⟩

theorem nodup_map_fst_next_states (f : Loc → CellType) (o : List Loc)
    (ho : o.Nodup) : ((next_states f o).map Prod.fst).Nodup := by
  rw [map_fst_next_states]
  exact ho.filter _

theorem World.mem_candidates (w : World) (l : Loc) :
    l ∈ w.candidates ↔
      ∃ l0, (w.get l0).is_alive = true ∧ (l = l0 ∨ l ∈ l0.neighbors) := by
  unfold World.candidates
  rw [Finset.mem_biUnion]
  constructor
  · rintro ⟨l0, hl0, hmem⟩
    by_cases ha : (w.current_buffer.val l0).is_alive = true
    · rw [if_pos ha] at hmem
      refine ⟨l0, ?_, ?_⟩
      · have hv : w.get l0 = w.current_buffer.val l0 := by
          simp [World.get, Buffer.getD, Buffer.lookup, hl0]
        rw [hv]
        exact ha
      · rcases Finset.mem_insert.mp hmem with h | h
        · exact Or.inl h
        · exact Or.inr (List.mem_toFinset.mp h)
    · rw [if_neg ha] at hmem
      exact absurd hmem (Finset.not_mem_empty l)
  · rintro ⟨l0, halive, hrel⟩
    have hk : l0 ∈ w.current_buffer.keys := by
      by_contra hk
      have hd : w.get l0 = CellType.Dead := by
        simp [World.get, Buffer.getD, Buffer.lookup, hk]
      rw [hd] at halive
      cases halive
    have hv : (w.current_buffer.val l0).is_alive = true := by
      have he : w.get l0 = w.current_buffer.val l0 := by
        simp [World.get, Buffer.getD, Buffer.lookup, hk]
      rwa [he] at halive
    refine ⟨l0, hk, ?_⟩
    rw [if_pos hv]
    rcases hrel with h | h
    · exact Finset.mem_insert.mpr (Or.inl h)
    · exact Finset.mem_insert.mpr (Or.inr (List.mem_toFinset.mpr h))

theorem candidates_congr {w1 w2 : World}
    (h : ∀ l, w1.get l = w2.get l) : w1.candidates = w2.candidates := by
  ext l
  rw [World.mem_candidates, World.mem_candidates]
  constructor
  · rintro ⟨l0, ha, hr⟩
    exact ⟨l0, by rw [← h l0]; exact ha, hr⟩
  · rintro ⟨l0, ha, hr⟩
    exact ⟨l0, by rw [h l0]; exact ha, hr⟩

/-! ### Characterizing `step` -/

theorem foldl_set_eq_withNext (ns : List (Loc × CellType)) (w : World) :
    ns.foldl (fun acc p => acc.set p.1 p.2) w =
      w.withNext (writeAll w.nextBufferView ns) := by
  induction ns generalizing w with
  | nil => exact (World.withNext_self w).symm
  | cons p rest ih =>
    rw [List.foldl_cons, ih, writeAll_cons]
    unfold World.set
    rw [World.withNext_withNext, World.nextV_withNext]

theorem stepWith_current_buffer (w : World) (o : List Loc) :
    (w.stepWith o).current_buffer =
      writeAll w.nextBufferView (next_states (fun l => w.get l) o) := by
  simp only [World.stepWith]
  rw [foldl_set_eq_withNext, World.swap_current, World.nextV_withNext]

theorem stepWith_nextBufferView (w : World) (o : List Loc) :
    (w.stepWith o).nextBufferView = w.current_buffer.clear := by
  simp only [World.stepWith]
  rw [foldl_set_eq_withNext, World.swap_next, World.current_withNext]

theorem step_current_buffer (w : World) :
    w.step.current_buffer =
      writeAll w.nextBufferView (next_states (fun l => w.get l) w.candidateList) := by
  unfold World.step
  exact stepWith_current_buffer w _

theorem mem_candidateList (w : World) (l : Loc) :
    l ∈ w.candidateList ↔ l ∈ w.candidates := Finset.mem_sort _

theorem candidateList_nodup (w : World) : w.candidateList.Nodup :=
  Finset.sort_nodup _ _

/-- The central evaluation lemma: when the staging buffer is empty, the
post-step value of any candidate is exactly `next_type` computed from the
pre-step active buffer. -/
theorem step_get_of_candidate (w : World) (l : Loc)
    (hclean : w.nextBufferView.keys = ∅) (hl : l ∈ w.candidates) :
    w.step.get l = next_type (fun x => w.get x) l := by
  have hg : w.step.get l = (w.step.current_buffer).getD l := rfl
  rw [hg, step_current_buffer]
  by_cases hc : (will_be_alive (fun x => w.get x) l || (w.get l).is_alive) = true
  · have hmem : (l, next_type (fun x => w.get x) l) ∈
        next_states (fun x => w.get x) w.candidateList :=
      (mem_next_states _ _ _ _).mpr ⟨(mem_candidateList w l).mpr hl, hc, rfl⟩
    rw [Buffer.getD,
      writeAll_lookup_of_written _ _ _ _
        (nodup_map_fst_next_states _ _ (candidateList_nodup w)) hmem]
    rfl
  · have hwba : will_be_alive (fun x => w.get x) l = false := by
      by_contra hh
      rw [Bool.not_eq_false] at hh
      exact hc (by rw [hh, Bool.true_or])
    have hnt : next_type (fun x => w.get x) l = CellType.Dead := by
      unfold next_type
      rw [hwba]
      simp
    have hnw : l ∉ (next_states (fun x => w.get x) w.candidateList).map Prod.fst := by
      rw [map_fst_next_states]
      intro hmem
      exact hc (List.mem_filter.mp hmem).2
    rcases writeAll_lookup_of_unwritten _ _ _ hnw with h | h
    · rw [Buffer.getD, h, Buffer.lookup_of_empty_keys hclean, hnt]
      rfl
    · rw [Buffer.getD, h, hnt]
      rfl

theorem step_get_of_not_candidate (w : World) (l : Loc)
    (hclean : w.nextBufferView.keys = ∅) (hl : l ∉ w.candidates) :
    w.step.get l = CellType.Dead := by
  have hnw : l ∉ (next_states (fun x => w.get x) w.candidateList).map Prod.fst := by
    rw [map_fst_next_states]
    intro hmem
    exact hl ((mem_candidateList w l).mp (List.mem_of_mem_filter hmem))
  have hg : w.step.get l = (w.step.current_buffer).getD l := rfl
  rw [hg, step_current_buffer]
  rcases writeAll_lookup_of_unwritten _ _ _ hnw with h | h
  · rw [Buffer.getD, h, Buffer.lookup_of_empty_keys hclean]
    rfl
  · rw [Buffer.getD, h]
    rfl

theorem new_get_dead (l : Loc) : (World.new.get l).is_alive = false := by
  simp [World.new, World.get, World.current_buffer, Buffer.getD, Buffer.lookup,
    CellType.is_alive]

/-! ### Claim theorems -/

/-- C8: `combine` is a total function on the 9 input pairs, commutative,
has `Dead` as identity, returns `Red` whenever either operand is `Red`,
and maps `(Blue, Blue)` to `Blue`. -/
theorem combine_algebra :
    (∀ a b, CellType.combine a b = CellType.combine b a) ∧
    (∀ x, CellType.combine CellType.Dead x = x ∧ CellType.combine x CellType.Dead = x) ∧
    (∀ x, CellType.combine CellType.Red x = CellType.Red ∧
      CellType.combine x CellType.Red = CellType.Red) ∧
    CellType.combine CellType.Blue CellType.Blue = CellType.Blue := by
  refine ⟨?_, ?_, ?_, rfl⟩
  · intro a b
    cases a <;> cases b <;> rfl
  · intro x
    cases x <;> exact ⟨rfl, rfl⟩
  · intro x
    cases x <;> exact ⟨rfl, rfl⟩

/-- C6: `swap_buffers_and_clear` makes the old staging buffer (the one
`set` writes to) the active buffer, leaves the new staging buffer empty,
`set` writes only to the staging buffer (the active buffer is untouched),
and `set_cell_now` never touches the staging buffer. -/
theorem swap_and_clear_spec (w : World) (l : Loc) (ct : CellType) :
    w.swap_buffers_and_clear.current_buffer = w.nextBufferView ∧
    w.swap_buffers_and_clear.nextBufferView.keys = ∅ ∧
    (w.set l ct).nextBufferView = w.nextBufferView.setCell l ct ∧
    (w.set l ct).current_buffer = w.current_buffer ∧
    (w.set_cell_now l ct).nextBufferView = w.nextBufferView :=
  ⟨World.swap_current w, by rw [World.swap_next]; rfl,
   World.set_nextV w l ct, World.set_current w l ct,
   World.set_cell_now_nextV w l ct⟩

/-- C5 counterexample: writing `Dead` through `set_cell_now` does create
neighbor entries — the neighbor (1,1) of (0,0) is materialized in the
active buffer even though the written state is `Dead`, contradicting the
claim that a `Dead` write creates no neighbor entries. -/
theorem set_cell_now_dead_creates_neighbors :
    Loc.mk 1 1 ∈
      (World.new.set_cell_now (Loc.mk 0 0) CellType.Dead).current_buffer.keys ∧
    Loc.mk 1 1 ∉ World.new.current_buffer.keys := by
  constructor
  · decide
  · decide

theorem Buffer.keys_setCellNow (b : Buffer) (l : Loc) (ct : CellType) :
    (b.setCellNow l ct).keys = Insert.insert l b.keys ∪ l.neighbors.toFinset := by
  unfold Buffer.setCellNow
  rw [Buffer.keys_foldl_orInsertDead, Buffer.keys_insert]

/-- C5 (amended): `set_cell_now` writes the state directly into the active
buffer and unconditionally ensures all 8 neighbors exist there (defaulting
to `Dead`, never overwriting an existing entry), for alive AND `Dead`
writes alike; the staging buffer is untouched. -/
theorem set_cell_now_spec (w : World) (l : Loc) (ct : CellType) :
    (w.set_cell_now l ct).current_buffer.lookup l = some ct ∧
    (∀ n, n ∈ l.neighbors → n ∈ (w.set_cell_now l ct).current_buffer.keys) ∧
    (∀ n, n ∈ l.neighbors → n ≠ l → n ∉ w.current_buffer.keys →
      (w.set_cell_now l ct).current_buffer.lookup n = some CellType.Dead) ∧
    (∀ n, n ∈ l.neighbors → n ≠ l → n ∈ w.current_buffer.keys →
      (w.set_cell_now l ct).current_buffer.lookup n = w.current_buffer.lookup n) ∧
    (w.set_cell_now l ct).nextBufferView = w.nextBufferView := by
  rw [World.set_cell_now_nextV, World.set_cell_now_current]
  refine ⟨?_, ?_, ?_, ?_, rfl⟩
  · unfold Buffer.setCellNow
    rw [Buffer.lookup_foldl_orInsertDead, Buffer.keys_insert]
    simp [Buffer.lookup_insert]
  · intro n hn
    rw [Buffer.keys_setCellNow]
    exact Finset.mem_union_right _ (List.mem_toFinset.mpr hn)
  · intro n hn hne hnk
    unfold Buffer.setCellNow
    rw [Buffer.lookup_foldl_orInsertDead, Buffer.keys_insert]
    have hni : n ∉ Insert.insert l w.current_buffer.keys := by
      rw [Finset.mem_insert]
      rintro (h | h)
      · exact hne h
      · exact hnk h
    simp [hn, hni]
  · intro n hn hne hnk
    unfold Buffer.setCellNow
    rw [Buffer.lookup_foldl_orInsertDead, Buffer.keys_insert]
    have hni : n ∈ Insert.insert l w.current_buffer.keys :=
      Finset.mem_insert.mpr (Or.inr hnk)
    simp only [hni, not_true_eq_false, and_false, if_false]
    rw [Buffer.lookup_insert]
    simp [hne]

/-- C5 witness: at `World::new`, writing `Dead` at (0,0) stores `Dead`
there and materializes neighbor (1,1) as `Dead`. -/
theorem set_cell_now_spec_witness :
    (World.new.set_cell_now (Loc.mk 0 0) CellType.Dead).current_buffer.lookup
      (Loc.mk 0 0) = some CellType.Dead ∧
    (World.new.set_cell_now (Loc.mk 0 0) CellType.Dead).current_buffer.lookup
      (Loc.mk 1 1) = some CellType.Dead :=
  ⟨(set_cell_now_spec World.new (Loc.mk 0 0) CellType.Dead).1,
   (set_cell_now_spec World.new (Loc.mk 0 0) CellType.Dead).2.2.1 (Loc.mk 1 1)
     (by decide) (by decide) (by decide)⟩

/-- C10: if no cell of the active buffer is alive and the staging buffer
is empty, one `step` leaves a completely empty active buffer (Dead-only
entries are garbage-collected) and `get` is `Dead` everywhere. -/
theorem step_garbage_collects_dead (w : World)
    (hclean : w.nextBufferView.keys = ∅)
    (hdead : ∀ l, (w.get l).is_alive = false) :
    w.step.current_buffer.keys = ∅ ∧ ∀ l, w.step.get l = CellType.Dead := by
  have hcand : w.candidates = ∅ := by
    ext l
    rw [World.mem_candidates]
    simp [hdead]
  have hlist : w.candidateList = [] := by
    unfold World.candidateList
    rw [hcand]
    exact Finset.sort_empty _
  have hcur : w.step.current_buffer = w.nextBufferView := by
    rw [step_current_buffer, hlist]
    rfl
  refine ⟨by rw [hcur]; exact hclean, ?_⟩
  intro l
  have hg : w.step.get l = (w.step.current_buffer).getD l := rfl
  rw [hg, hcur, Buffer.getD, Buffer.lookup_of_empty_keys hclean]
  rfl

/-- C10 witness: a fresh world steps to an empty active buffer. -/
theorem step_garbage_collects_dead_witness :
    World.new.step.current_buffer.keys = ∅ ∧
    World.new.step.get (Loc.mk 5 5) = CellType.Dead :=
  ⟨(step_garbage_collects_dead World.new rfl new_get_dead).1,
   (step_garbage_collects_dead World.new rfl new_get_dead).2 (Loc.mk 5 5)⟩

/-- C1: for any candidate evaluated by `step` (with an empty staging
buffer): an alive cell survives with its original color exactly when its
alive-neighbor count is 2 or 3, and becomes `Dead` otherwise; a dead cell
becomes alive exactly when the count is 3, and stays `Dead` otherwise. -/
theorem step_survival_and_birth (w : World) (l : Loc)
    (hclean : w.nextBufferView.keys = ∅) (hl : l ∈ w.candidates) :
    ((w.get l).is_alive = true →
      w.step.get l =
        (if total_alive_neighbors (fun x => w.get x) l = 2 ∨
            total_alive_neighbors (fun x => w.get x) l = 3 then w.get l
          else CellType.Dead)) ∧
    ((w.get l).is_alive = false →
      ((w.step.get l).is_alive = true ↔
        total_alive_neighbors (fun x => w.get x) l = 3) ∧
      (total_alive_neighbors (fun x => w.get x) l ≠ 3 →
        w.step.get l = CellType.Dead)) := by
  rw [step_get_of_candidate w l hclean hl]
  constructor
  · intro ha
    by_cases hn : total_alive_neighbors (fun x => w.get x) l = 2 ∨
        total_alive_neighbors (fun x => w.get x) l = 3
    · have hwba : will_be_alive (fun x => w.get x) l = true := by
        unfold will_be_alive
        simp only [ha, if_true]
        rcases hn with h | h
        · rw [h]
          rfl
        · rw [h]
          rfl
      rw [if_pos hn]
      unfold next_type
      simp only [hwba, if_true, ha]
    · have hwba : will_be_alive (fun x => w.get x) l = false := by
        unfold will_be_alive
        simp only [ha, if_true]
        rw [not_or] at hn
        simp only [Bool.or_eq_false_iff, beq_eq_false_iff_ne, ne_eq]
        exact ⟨hn.1, hn.2⟩
      rw [if_neg hn]
      unfold next_type
      simp only [hwba, Bool.false_eq_true, if_false]
  · intro ha
    have hwba : will_be_alive (fun x => w.get x) l =
        (total_alive_neighbors (fun x => w.get x) l == 3) := by
      unfold will_be_alive
      simp only [ha, Bool.false_eq_true, if_false]
    constructor
    · constructor
      · intro halive
        by_contra hn
        have hwf : will_be_alive (fun x => w.get x) l = false := by
          rw [hwba]
          simpa using hn
        unfold next_type at halive
        rw [hwf] at halive
        simp [CellType.is_alive] at halive
      · intro hn
        have hwt : will_be_alive (fun x => w.get x) l = true := by
          rw [hwba, hn]
          rfl
        unfold next_type
        rw [hwt]
        simp only [if_true, ha, Bool.false_eq_true, if_false]
        split_ifs <;> rfl
    · intro hn
      have hwf : will_be_alive (fun x => w.get x) l = false := by
        rw [hwba]
        simpa using hn
      unfold next_type
      rw [hwf]
      simp

/-- C1 witness: the (0,0) cell of the 2×2 block is alive with 3 alive
neighbors and survives as `Red`. -/
theorem step_survival_and_birth_witness :
    blockWorld.nextBufferView.keys = ∅ ∧
    Loc.mk 0 0 ∈ blockWorld.candidates ∧
    (blockWorld.get (Loc.mk 0 0)).is_alive = true ∧
    blockWorld.step.get (Loc.mk 0 0) =
      (if total_alive_neighbors (fun x => blockWorld.get x) (Loc.mk 0 0) = 2 ∨
          total_alive_neighbors (fun x => blockWorld.get x) (Loc.mk 0 0) = 3 then
        blockWorld.get (Loc.mk 0 0)
      else CellType.Dead) :=
  ⟨rfl, by decide, by decide,
   (step_survival_and_birth blockWorld (Loc.mk 0 0) rfl (by decide)).1 (by decide)⟩

/-- C2: a dead candidate with exactly 3 alive neighbors becomes alive, and
its color is the strict majority color of those neighbors: more `Red`
gives `Red`, more `Blue` gives `Blue`; a tie with a `Red` present would
give `Red` and a tie without any `Red` would fall back to `Blue` (both tie
cases are impossible at count 3). -/
theorem birth_color_majority (w : World) (l : Loc)
    (hclean : w.nextBufferView.keys = ∅) (hl : l ∈ w.candidates)
    (hdead : (w.get l).is_alive = false)
    (h3 : total_alive_neighbors (fun x => w.get x) l = 3) :
    (w.step.get l).is_alive = true ∧
    red_neighbors (fun x => w.get x) l + blue_neighbors (fun x => w.get x) l = 3 ∧
    (red_neighbors (fun x => w.get x) l > blue_neighbors (fun x => w.get x) l →
      w.step.get l = CellType.Red) ∧
    (blue_neighbors (fun x => w.get x) l > red_neighbors (fun x => w.get x) l →
      w.step.get l = CellType.Blue) ∧
    (red_neighbors (fun x => w.get x) l = blue_neighbors (fun x => w.get x) l →
      red_neighbors (fun x => w.get x) l > 0 → w.step.get l = CellType.Red) ∧
    (red_neighbors (fun x => w.get x) l = blue_neighbors (fun x => w.get x) l →
      red_neighbors (fun x => w.get x) l = 0 → w.step.get l = CellType.Blue) := by
  rw [step_get_of_candidate w l hclean hl]
  have hwt : will_be_alive (fun x => w.get x) l = true := by
    unfold will_be_alive
    rw [hdead]
    simp only [Bool.false_eq_true, if_false, h3]
    rfl
  have htot : red_neighbors (fun x => w.get x) l +
      blue_neighbors (fun x => w.get x) l = 3 := h3
  refine ⟨?_, htot, ?_, ?_, ?_, ?_⟩
  · unfold next_type
    rw [hwt, hdead]
    simp only [if_true, Bool.false_eq_true, if_false]
    split_ifs <;> rfl
  · intro hr
    unfold next_type
    rw [hwt, hdead]
    simp only [if_true, Bool.false_eq_true, if_false]
    rw [if_pos hr]
  · intro hb
    unfold next_type
    rw [hwt, hdead]
    simp only [if_true, Bool.false_eq_true, if_false]
    rw [if_neg (by omega), if_pos hb]
  · intro heq hpos
    omega
  · intro heq hzero
    omega

/-- C2 witness: the dead cell (1,1) of `birthWorld` has 3 alive neighbors,
2 `Red` and 1 `Blue`, and is born `Red`. -/
theorem birth_color_majority_witness :
    (birthWorld.get (Loc.mk 1 1)).is_alive = false ∧
    total_alive_neighbors (fun x => birthWorld.get x) (Loc.mk 1 1) = 3 ∧
    red_neighbors (fun x => birthWorld.get x) (Loc.mk 1 1) = 2 ∧
    birthWorld.step.get (Loc.mk 1 1) = CellType.Red :=
  ⟨by decide, by decide, by decide,
   (birth_color_majority birthWorld (Loc.mk 1 1) rfl (by decide) (by decide)
     (by decide)).2.2.1 (by decide)⟩

theorem fromConfigurationAux_preserves_current (d a : Char) (data : List Char) :
    ∀ (w : World) (row col : Int) (res : World),
      fromConfigurationAux d a data w row col = Except.ok res →
      res.current_buffer = w.current_buffer := by
  induction data with
  | nil =>
    intro w row col res h
    cases h
    rfl
  | cons c rest ih =>
    intro w row col res h
    rw [fromConfigurationAux] at h
    by_cases h1 : c = d
    · rw [if_pos h1] at h
      rw [ih _ _ _ _ h, World.set_current]
    · rw [if_neg h1] at h
      by_cases h2 : c = a
      · rw [if_pos h2] at h
        rw [ih _ _ _ _ h, World.set_current]
      · rw [if_neg h2] at h
        by_cases h3 : c = '\n'
        · rw [if_pos h3] at h
          exact ih _ _ _ _ h
        · rw [if_neg h3] at h
          by_cases h4 : c = '\r'
          · rw [if_pos h4] at h
            exact ih _ _ _ _ h
          · rw [if_neg h4] at h
            cases h

/-- C7: the configuration loader consumes the text character by
character — the dead marker writes `Dead` and advances the column, the
alive marker writes `Red` and advances the column, a newline advances the
row and resets the column, a carriage return is skipped, and any other
character aborts with an error naming the character and its (row, col);
in particular `"*X\n"` with markers '.'/'*' fails reporting 'X' at
(0, 1).  Successful loads never touch the active buffer (all writes go
through `set` into the staging buffer). -/
theorem from_configuration_spec :
    (∀ (d a : Char) (rest : List Char) (w : World) (row col : Int),
      fromConfigurationAux d a (d :: rest) w row col =
        fromConfigurationAux d a rest
          (w.set (Loc.mk row col) CellType.Dead) row (col + 1)) ∧
    (∀ (d a : Char) (rest : List Char) (w : World) (row col : Int), a ≠ d →
      fromConfigurationAux d a (a :: rest) w row col =
        fromConfigurationAux d a rest
          (w.set (Loc.mk row col) CellType.Red) row (col + 1)) ∧
    (∀ (d a : Char) (rest : List Char) (w : World) (row col : Int),
      '\n' ≠ d → '\n' ≠ a →
      fromConfigurationAux d a ('\n' :: rest) w row col =
        fromConfigurationAux d a rest w (row + 1) 0) ∧
    (∀ (d a : Char) (rest : List Char) (w : World) (row col : Int),
      '\r' ≠ d → '\r' ≠ a →
      fromConfigurationAux d a ('\r' :: rest) w row col =
        fromConfigurationAux d a rest w row col) ∧
    (∀ (d a c : Char) (rest : List Char) (w : World) (row col : Int),
      c ≠ d → c ≠ a → c ≠ '\n' → c ≠ '\r' →
      fromConfigurationAux d a (c :: rest) w row col =
        Except.error (invalidCharMsg c row col)) ∧
    (World.from_configuration ['*', 'X', '\n'] '.' '*' =
      Except.error (invalidCharMsg 'X' 0 1)) ∧
    (∀ (data : List Char) (d a : Char) (w : World),
      World.from_configuration data d a = Except.ok w →
      w.current_buffer.keys = ∅) := by
  refine ⟨?_, ?_, ?_, ?_, ?_, rfl, ?_⟩
  · intro d a rest w row col
    rw [fromConfigurationAux, if_pos rfl]
  · intro d a rest w row col had
    rw [fromConfigurationAux, if_neg had, if_pos rfl]
  · intro d a rest w row col hnd hna
    rw [fromConfigurationAux, if_neg hnd, if_neg hna, if_pos rfl]
  · intro d a rest w row col hrd hra
    rw [fromConfigurationAux, if_neg hrd, if_neg hra,
      if_neg (by decide : ¬('\r' = '\n')), if_pos rfl]
  · intro d a c rest w row col h1 h2 h3 h4
    rw [fromConfigurationAux, if_neg h1, if_neg h2, if_neg h3, if_neg h4]
  · intro data d a w h
    rw [fromConfigurationAux_preserves_current d a data World.new 0 0 w h]
    rfl

/-- C7 witness: the invalid-character example, a concrete alive-marker
step, and a successful load leaving the active buffer empty. -/
theorem from_configuration_spec_witness :
    World.from_configuration ['*', 'X', '\n'] '.' '*' =
      Except.error (invalidCharMsg 'X' 0 1) ∧
    fromConfigurationAux '.' '*' ['*'] World.new 0 0 =
      fromConfigurationAux '.' '*' []
        (World.new.set (Loc.mk 0 0) CellType.Red) 0 1 ∧
    (World.new.set (Loc.mk 0 0) CellType.Red).current_buffer.keys = ∅ :=
  ⟨from_configuration_spec.2.2.2.2.2.1,
   from_configuration_spec.2.1 '.' '*' [] World.new 0 0 (by decide),
   from_configuration_spec.2.2.2.2.2.2 ['*'] '.' '*'
     (World.new.set (Loc.mk 0 0) CellType.Red) rfl⟩

theorem wrap64_of_range (x : Int) (h1 : -(2 ^ 63) ≤ x) (h2 : x < 2 ^ 63) :
    wrap64 x = x := by
  unfold wrap64
  omega

theorem wrap64_add_one_ne (r : Int) : wrap64 (r + 1) ≠ r := by
  unfold wrap64
  omega

theorem wrap64_sub_one_ne (r : Int) : wrap64 (r - 1) ≠ r := by
  unfold wrap64
  omega

theorem wrap64_add_ne_sub (r : Int) : wrap64 (r + 1) ≠ wrap64 (r - 1) := by
  unfold wrap64
  omega

theorem Loc.mk_ne_of_row {r1 c1 r2 c2 : Int} (h : r1 ≠ r2) :
    Loc.mk r1 c1 ≠ Loc.mk r2 c2 := by
  intro he
  cases he
  exact h rfl

theorem Loc.mk_ne_of_col {r1 c1 r2 c2 : Int} (h : c1 ≠ c2) :
    Loc.mk r1 c1 ≠ Loc.mk r2 c2 := by
  intro he
  cases he
  exact h rfl

set_option maxHeartbeats 2000000

/-- C9: for any in-range `i64` coordinate, `neighbors` returns exactly the
8 Moore-neighborhood coordinates (each component offset by -1, 0 or +1 in
wrapping `i64` arithmetic, the (0,0) offset excluded); they are pairwise
distinct, never include the coordinate itself, and the operation is a
total pure function (no failure even at the extremes of the range). -/
theorem neighbors_spec (r c : Int)
    (hr1 : -(2 ^ 63) ≤ r) (hr2 : r < 2 ^ 63)
    (hc1 : -(2 ^ 63) ≤ c) (hc2 : c < 2 ^ 63) :
    (Loc.mk r c).neighbors.length = 8 ∧
    (Loc.mk r c).neighbors.Nodup ∧
    Loc.mk r c ∉ (Loc.mk r c).neighbors ∧
    (Loc.mk r c).neighbors.toFinset =
      mooreOffsets.image fun d => Loc.mk (wrap64 (r + d.1)) (wrap64 (c + d.2)) := by
  have hAB : wrap64 (r + 1) ≠ wrap64 (r - 1) := wrap64_add_ne_sub r
  have hBA : wrap64 (r - 1) ≠ wrap64 (r + 1) := hAB.symm
  have hAr : wrap64 (r + 1) ≠ r := wrap64_add_one_ne r
  have hrA : r ≠ wrap64 (r + 1) := hAr.symm
  have hBr : wrap64 (r - 1) ≠ r := wrap64_sub_one_ne r
  have hrB : r ≠ wrap64 (r - 1) := hBr.symm
  have hab : wrap64 (c + 1) ≠ wrap64 (c - 1) := wrap64_add_ne_sub c
  have hba : wrap64 (c - 1) ≠ wrap64 (c + 1) := hab.symm
  have hac : wrap64 (c + 1) ≠ c := wrap64_add_one_ne c
  have hca : c ≠ wrap64 (c + 1) := hac.symm
  have hbc : wrap64 (c - 1) ≠ c := wrap64_sub_one_ne c
  have hcb : c ≠ wrap64 (c - 1) := hbc.symm
  refine ⟨rfl, ?_, ?_, ?_⟩
  · simp only [Loc.neighbors, List.nodup_cons, List.mem_cons, List.not_mem_nil,
      or_false, List.nodup_nil, and_true, not_or]
    exact ⟨⟨Loc.mk_ne_of_col hab, Loc.mk_ne_of_row hAB, Loc.mk_ne_of_row hAB,
        Loc.mk_ne_of_col hac, Loc.mk_ne_of_row hAr, Loc.mk_ne_of_row hAB,
        Loc.mk_ne_of_row hAr⟩,
      ⟨Loc.mk_ne_of_row hAB, Loc.mk_ne_of_row hAB, Loc.mk_ne_of_col hbc,
        Loc.mk_ne_of_row hAr, Loc.mk_ne_of_row hAB, Loc.mk_ne_of_row hAr⟩,
      ⟨Loc.mk_ne_of_col hab, Loc.mk_ne_of_row hBA, Loc.mk_ne_of_row hBr,
        Loc.mk_ne_of_col hac, Loc.mk_ne_of_row hBr⟩,
      ⟨Loc.mk_ne_of_row hBA, Loc.mk_ne_of_row hBr, Loc.mk_ne_of_col hbc,
        Loc.mk_ne_of_row hBr⟩,
      ⟨Loc.mk_ne_of_row hAr, Loc.mk_ne_of_row hAB, Loc.mk_ne_of_row hAr⟩,
      ⟨Loc.mk_ne_of_row hrB, Loc.mk_ne_of_col hab⟩,
      ⟨Loc.mk_ne_of_row hBr, not_false⟩⟩
  · simp only [Loc.neighbors, List.mem_cons, List.not_mem_nil, or_false, not_or]
    exact ⟨Loc.mk_ne_of_row hrA, Loc.mk_ne_of_row hrA, Loc.mk_ne_of_row hrB,
      Loc.mk_ne_of_row hrB, Loc.mk_ne_of_row hrA, Loc.mk_ne_of_col hca,
      Loc.mk_ne_of_row hrB, Loc.mk_ne_of_col hcb⟩
  · have hwr : wrap64 r = r := wrap64_of_range r hr1 hr2
    have hwc : wrap64 c = c := wrap64_of_range c hc1 hc2
    have hoff : mooreOffsets =
        {((-1 : Int), (-1 : Int)), (-1, 0), (-1, 1), (0, -1),
         (0, 1), (1, -1), (1, 0), (1, 1)} := by decide
    rw [hoff]
    simp only [Finset.image_insert, Finset.image_singleton, ← sub_eq_add_neg,
      add_zero, hwr, hwc]
    simp only [Loc.neighbors, List.toFinset_cons, List.toFinset_nil,
      insert_emptyc_eq]
    ext x
    simp only [Finset.mem_insert, Finset.mem_singleton]
    tauto

set_option maxHeartbeats 400000

/-- C9 witness: at the extreme corner of the `i64` range the 8 neighbors
are still pairwise distinct and exclude the cell itself. -/
theorem neighbors_spec_witness :
    (-(2 ^ 63) : Int) ≤ 2 ^ 63 - 1 ∧
    (Loc.mk (2 ^ 63 - 1) (2 ^ 63 - 1)).neighbors.Nodup ∧
    Loc.mk (2 ^ 63 - 1) (2 ^ 63 - 1) ∉ (Loc.mk (2 ^ 63 - 1) (2 ^ 63 - 1)).neighbors :=
  ⟨by norm_num,
   (neighbors_spec (2 ^ 63 - 1) (2 ^ 63 - 1) (by norm_num) (by norm_num)
     (by norm_num) (by norm_num)).2.1,
   (neighbors_spec (2 ^ 63 - 1) (2 ^ 63 - 1) (by norm_num) (by norm_num)
     (by norm_num) (by norm_num)).2.2.1⟩

/-- C3: the outcome of `step` only depends on the pre-step active buffer:
every candidate is evaluated against the pre-transition buffer, so any two
enumerations of the candidate set produce the same resulting active-buffer
mapping (and the canonical enumeration used by `step` is one of them). -/
theorem step_order_irrelevant (w : World) (o1 o2 : List Loc)
    (h1 : o1.Nodup) (h2 : o2.Nodup)
    (hf1 : o1.toFinset = w.candidates) (hf2 : o2.toFinset = w.candidates) :
    w.candidateList.Nodup ∧ w.candidateList.toFinset = w.candidates ∧
    ∀ l, (w.stepWith o1).current_buffer.lookup l =
      (w.stepWith o2).current_buffer.lookup l := by
  refine ⟨candidateList_nodup w, Finset.sort_toFinset _ _, ?_⟩
  have hperm : o1.Perm o2 :=
    List.perm_of_nodup_nodup_toFinset_eq h1 h2 (hf1.trans hf2.symm)
  have hns : (next_states (fun l => w.get l) o1).Perm
      (next_states (fun l => w.get l) o2) := hperm.filterMap _
  intro l
  rw [stepWith_current_buffer, stepWith_current_buffer]
  by_cases hw : l ∈ (next_states (fun x => w.get x) o1).map Prod.fst
  · obtain ⟨p, hp, hfst⟩ := List.mem_map.mp hw
    have hpeq : p = (l, p.2) := by
      cases p
      cases hfst
      rfl
    have hp1 : (l, p.2) ∈ next_states (fun x => w.get x) o1 := by
      rwa [hpeq] at hp
    have hp2 : (l, p.2) ∈ next_states (fun x => w.get x) o2 := hns.mem_iff.mp hp1
    rw [writeAll_lookup_of_written _ _ _ _ (nodup_map_fst_next_states _ _ h1) hp1,
      writeAll_lookup_of_written _ _ _ _ (nodup_map_fst_next_states _ _ h2) hp2]
  · have hw2 : l ∉ (next_states (fun x => w.get x) o2).map Prod.fst := by
      intro hmem
      exact hw ((hns.map Prod.fst).mem_iff.mpr hmem)
    rw [writeAll_lookup_of_unwritten_exact _ _ _ hw,
      writeAll_lookup_of_unwritten_exact _ _ _ hw2]
    by_cases hk : l ∈ w.nextBufferView.keys
    · rw [if_pos hk, if_pos hk]
    · rw [if_neg hk, if_neg hk]
      by_cases he : ∃ p ∈ next_states (fun x => w.get x) o1,
          p.2.is_alive = true ∧ l ∈ p.1.neighbors
      · obtain ⟨q, hq, hq2⟩ := he
        rw [if_pos ⟨q, hq, hq2⟩, if_pos ⟨q, hns.mem_iff.mp hq, hq2⟩]
      · have he2 : ¬∃ p ∈ next_states (fun x => w.get x) o2,
            p.2.is_alive = true ∧ l ∈ p.1.neighbors := by
          rintro ⟨q, hq, hq2⟩
          exact he ⟨q, hns.mem_iff.mpr hq, hq2⟩
        rw [if_neg he, if_neg he2]

/-- C3 witness: evaluating `blockWorld`'s candidates in two opposite
orders yields the same active-buffer entry at (0,0). -/
theorem step_order_irrelevant_witness :
    (blockWorld.stepWith enumA).current_buffer.lookup (Loc.mk 0 0) =
      (blockWorld.stepWith enumB).current_buffer.lookup (Loc.mk 0 0) :=
  (step_order_irrelevant blockWorld enumA enumB (by decide) (by decide)
    (by decide) (by decide)).2.2 (Loc.mk 0 0)

theorem blockCells_subset_keys : blockCells ⊆ blockKeys :=
  fun _ hx => Finset.mem_union_left _ hx

theorem blockWorld_get (l : Loc) : blockWorld.get l = blockFun l := by
  show (Buffer.mk blockKeys blockFun).getD l = blockFun l
  unfold Buffer.getD Buffer.lookup
  by_cases h : l ∈ blockKeys
  · simp [h]
  · have hnb : l ∉ blockCells := fun hc => h (blockCells_subset_keys hc)
    simp [h, blockFun, hnb]

theorem blockWorld_candidates : blockWorld.candidates = blockKeys := by decide

theorem blockInv_blockWorld : BlockInv blockWorld := ⟨blockWorld_get, rfl⟩

theorem next_type_blockFun :
    ∀ l ∈ blockKeys, next_type blockFun l = blockFun l := by decide

theorem blockInv_step {w : World} (h : BlockInv w) : BlockInv w.step := by
  obtain ⟨hget, hclean⟩ := h
  have hgetf : (fun l => w.get l) = blockFun := funext hget
  have hcand : w.candidates = blockKeys := by
    rw [candidates_congr (fun l => (hget l).trans (blockWorld_get l).symm)]
    exact blockWorld_candidates
  constructor
  · intro l
    by_cases hm : l ∈ blockKeys
    · have hc : l ∈ w.candidates := by
        rw [hcand]
        exact hm
      rw [step_get_of_candidate w l hclean hc, hgetf]
      exact next_type_blockFun l hm
    · have hc : l ∉ w.candidates := by
        rw [hcand]
        exact hm
      rw [step_get_of_not_candidate w l hclean hc]
      have hnb : l ∉ blockCells := fun hcc => hm (blockCells_subset_keys hcc)
      unfold blockFun
      rw [if_neg hnb]
  · show w.step.nextBufferView.keys = ∅
    unfold World.step
    rw [stepWith_nextBufferView]
    rfl

theorem blockInv_iterate (n : Nat) : BlockInv (World.step^[n] blockWorld) := by
  induction n with
  | zero => exact blockInv_blockWorld
  | succ n ih =>
    rw [Function.iterate_succ_apply']
    exact blockInv_step ih

/-- C4: the 2×2 block of `Red` cells is a still life: after any number of
`step` calls, `get` returns `Red` at the four block coordinates and `Dead`
at every other coordinate, exactly as before any step. -/
theorem block_still_life (n : Nat) (l : Loc) :
    (World.step^[n] blockWorld).get l =
      if l ∈ blockCells then CellType.Red else CellType.Dead :=
  (blockInv_iterate n).1 l
